import Mathlib

/-!
Verification of the Symetrix Composer Control Protocol meter client
(`server/src/symetrix.ts`): the push-frame codec (line splitting on the
carriage-return terminator, trimming, and the `#DDDDD=DDDDD` parser) and the
client state machine (constructor, start/stop/snapshot, socket event
handlers, reconnect scheduling).

The embedding is shallow: strings from the wire are lists of characters,
JavaScript objects/Maps keyed by strings or numbers are insertion-ordered
association lists with unique keys (`setKey` updates the first matching key
in place, else appends, which is exactly the observable behaviour of a JS
`Record`/`Map`), and the client's mutable fields form the structure
`ClientState`.  JavaScript numbers that the program only ever uses at
integral values (controller numbers, 5-digit wire values, epochs) are
modelled as `Nat`; the configured push interval and threshold are modelled
as `Int` (they are integers per the configuration contract, so
`Math.floor` is the identity on them).  Socket writes are recorded in a
ghost `sent` trace; sockets and timers are identified by ghost generation
counters so that claims about "exactly one reconnect" and "a fresh socket"
are expressible.
-/

namespace Symetrix

/-- Character codes removed by JavaScript `String.prototype.trim`
(WhiteSpace and LineTerminator code points). -/
def jsWhitespaceCodes : List Nat :=
  [9, 10, 11, 12, 13, 32, 160, 0x1680, 0x2000, 0x2001, 0x2002, 0x2003,
   0x2004, 0x2005, 0x2006, 0x2007, 0x2008, 0x2009, 0x200A, 0x2028, 0x2029,
   0x202F, 0x205F, 0x3000, 0xFEFF]

/-- Whether `trim` removes the character `c`. -/
def isJsWhitespace (c : Char) : Bool := jsWhitespaceCodes.contains c.toNat

/-- JavaScript `line.trim()`: drop whitespace from both ends. -/
def trim (l : List Char) : List Char :=
  ((l.dropWhile isJsWhitespace).reverse.dropWhile isJsWhitespace).reverse

/-- The character class `\d` of the JavaScript regular expression: the ASCII
digits, code points 48..57. -/
def isDig (c : Char) : Bool := decide (48 ≤ c.toNat) && decide (c.toNat ≤ 57)

/-- Numeric value of an ASCII digit character. -/
def digitVal (c : Char) : Nat := c.toNat - 48

/-- Decimal value of five digit characters, most significant first: what
JavaScript `Number` returns on a 5-digit group (leading zeros allowed). -/
def toNum5 (a b c d e : Char) : Nat :=
  digitVal a * 10000 + digitVal b * 1000 + digitVal c * 100 +
    digitVal d * 10 + digitVal e

/-- The push-line parser `parsePushLine` of `symetrix.ts`: the line must
match `^#(\d{5})=(\d{5})$` exactly (twelve characters), and the two digit
groups are read as decimal numbers. -/
def parsePushLine (line : List Char) : Option (Nat × Nat) :=
  match line with
  | ['#', a, b, c, d, e, '=', f, g, h, i, j] =>
      if isDig a && isDig b && isDig c && isDig d && isDig e &&
         isDig f && isDig g && isDig h && isDig i && isDig j then
        some (toNum5 a b c d e, toNum5 f g h i j)
      else none
  | _ => none

/-- Prepend a character to the first complete segment of a split result; when
there is no complete segment the character belongs to the remainder. -/
def consHead (c : Char) : List (List Char) × List Char → List (List Char) × List Char
  | ([], r) => ([], c :: r)
  | (s :: ss, r) => ((c :: s) :: ss, r)

/-- The buffer step of the data handler: `buffer.split("\r")` followed by
`parts.pop()`.  Returns the complete segments (in order) and the
unterminated remainder that reseeds the buffer. -/
def splitCR : List Char → List (List Char) × List Char
  | [] => ([], [])
  | c :: rest =>
    if c = '\r' then ([] :: (splitCR rest).1, (splitCR rest).2)
    else consHead c (splitCR rest)

/-- One complete segment of the data-handler loop: trim, skip when empty,
then parse.  (`parsePushLine` rejects the empty line as well, so the `continue`
on the empty line and the `continue` on a failed parse coincide on `none`.) -/
def decodeLine (rawLine : List Char) : Option (Nat × Nat) :=
  let line := trim rawLine
  if line.isEmpty then none else parsePushLine line

/-- The decoded (controller, value) pairs of a list of complete segments. -/
def decodeParts (parts : List (List Char)) : List (Nat × Nat) :=
  parts.filterMap decodeLine

/-- One `data` event of the codec: append the chunk to the rolling buffer,
split off the complete segments, decode them, keep the remainder. -/
def decodeChunk (buffer chunk : List Char) : List (Nat × Nat) × List Char :=
  let sp := splitCR (buffer ++ chunk)
  (decodeParts sp.1, sp.2)

/-- A sequence of `data` events: each chunk is decoded against the buffer the
previous chunk left behind; the decoded pairs are concatenated in order. -/
def decodeStream (buffer : List Char) : List (List Char) → List (Nat × Nat) × List Char
  | [] => ([], buffer)
  | c :: cs =>
    let o1 := decodeChunk buffer c
    let o2 := decodeStream o1.2 cs
    (o1.1 ++ o2.1, o2.2)

theorem splitCR_append (a b : List Char) :
    splitCR (a ++ b) =
      ((splitCR a).1 ++ (splitCR ((splitCR a).2 ++ b)).1,
       (splitCR ((splitCR a).2 ++ b)).2) := by
  induction a with
  | nil => simp [splitCR]
  | cons c a ih =>
    rcases hsp : splitCR a with ⟨p, r⟩
    rcases h2 : splitCR (r ++ b) with ⟨p2, r2⟩
    rw [hsp] at ih
    simp only at ih
    rw [h2] at ih
    by_cases hc : c = '\r'
    · simp [splitCR, hc, hsp, ih, h2]
    · rcases p with _ | ⟨s, ss⟩
      · rcases p2 with _ | ⟨t, ts⟩ <;>
          simp [splitCR, hc, hsp, ih, h2, consHead]
      · simp [splitCR, hc, hsp, ih, h2, consHead]

theorem splitCR_snd_fix (l : List Char) :
    splitCR (splitCR l).2 = ([], (splitCR l).2) := by
  induction l with
  | nil => simp [splitCR]
  | cons c l ih =>
    rcases hsp : splitCR l with ⟨p, r⟩
    rw [hsp] at ih
    simp only at ih
    by_cases hc : c = '\r'
    · simp [splitCR, hc, hsp, ih]
    · rcases p with _ | ⟨s, ss⟩
      · simp [splitCR, hc, hsp, consHead, ih]
      · simp [splitCR, hc, hsp, consHead, ih]

theorem decodeChunk_append (b c1 c2 : List Char) :
    decodeChunk b (c1 ++ c2) =
      ((decodeChunk b c1).1 ++ (decodeChunk (decodeChunk b c1).2 c2).1,
       (decodeChunk (decodeChunk b c1).2 c2).2) := by
  simp only [decodeChunk, ← List.append_assoc, splitCR_append (b ++ c1) c2,
    decodeParts, List.filterMap_append]

theorem decodeStream_eq_decodeChunk_flatten (b : List Char)
    (hb : splitCR b = ([], b)) (chunks : List (List Char)) :
    decodeStream b chunks = decodeChunk b chunks.flatten := by
  induction chunks generalizing b with
  | nil => simp [decodeStream, decodeChunk, hb, decodeParts]
  | cons c cs ih =>
    have hfix : splitCR (decodeChunk b c).2 = ([], (decodeChunk b c).2) := by
      simpa [decodeChunk] using splitCR_snd_fix (b ++ c)
    simp only [List.flatten_cons, decodeStream, ih (decodeChunk b c).2 hfix,
      decodeChunk_append b c cs.flatten]

/-- C2. Fragmentation invariance: starting from the empty buffer, feeding the
chunks one `data` event at a time yields the same ordered sequence of decoded
(controller, value) pairs — and the same final buffer — as feeding the
concatenation of all chunks as one single read.  A frame split across reads is
reassembled, and multiple frames in one read are all decoded. -/
theorem fragmentation_invariance (chunks : List (List Char)) :
    decodeStream [] chunks = decodeChunk [] chunks.flatten :=
  decodeStream_eq_decodeChunk_flatten [] (by simp [splitCR]) chunks

/-- A meter definition from the configuration: `MeterDef` of `symetrix.ts`. -/
structure MeterDef where
  id : String
  label : String
  controller : Nat
deriving DecidableEq

/-- A runtime meter record: `MeterValue` of `symetrix.ts`. -/
structure MeterValue where
  id : String
  label : String
  controller : Nat
  raw : Option Nat
  lastEpoch : Option Nat
deriving DecidableEq

/-- Constructor options as passed in (`Options` of `symetrix.ts`); the
optional fields carry `none` for a JavaScript `undefined`. -/
structure Options where
  host : String
  port : Option Nat
  quietMode : Option Bool
  echoMode : Option Bool
  pushIntervalMs : Option Int
  pushThresholdMeter : Option Int
  meters : List MeterDef
deriving DecidableEq

/-- Options after the constructor's defaulting spread:
`port ?? 48631`, `quietMode ?? true`, `echoMode ?? false`. -/
structure NormOptions where
  host : String
  port : Nat
  quietMode : Bool
  echoMode : Bool
  pushIntervalMs : Option Int
  pushThresholdMeter : Option Int
  meters : List MeterDef
deriving DecidableEq

/-- The defaulting spread at the top of the constructor. -/
def normalizeOptions (o : Options) : NormOptions :=
  { host := o.host, port := o.port.getD 48631, quietMode := o.quietMode.getD true,
    echoMode := o.echoMode.getD false, pushIntervalMs := o.pushIntervalMs,
    pushThresholdMeter := o.pushThresholdMeter, meters := o.meters }

/-- Set a key of an insertion-ordered association list the way a JavaScript
`Record`/`Map` does: overwrite the first matching entry in place, otherwise
append.  Lists built only through `setKey` have one entry per key. -/
def setKey {α β : Type} [DecidableEq α] : List (α × β) → α → β → List (α × β)
  | [], k, v => [(k, v)]
  | p :: rest, k, v => if p.1 = k then (k, v) :: rest else p :: setKey rest k v

/-- Lookup in an insertion-ordered association list (JavaScript property read
or `Map.get`). -/
def getKey {α β : Type} [DecidableEq α] : List (α × β) → α → Option β
  | [], _ => none
  | p :: rest, k => if p.1 = k then some p.2 else getKey rest k

/-- The constructor's loop filling `this.values`: one `MeterValue` per
definition, `raw` and `lastEpoch` starting as null. -/
def initValues : List MeterDef → List (String × MeterValue) → List (String × MeterValue)
  | [], acc => acc
  | m :: rest, acc =>
      initValues rest (setKey acc m.id ⟨m.id, m.label, m.controller, none, none⟩)

/-- The constructor's loop filling `this.byController`. -/
def buildIndex : List MeterDef → List (Nat × String) → List (Nat × String)
  | [], acc => acc
  | m :: rest, acc => buildIndex rest (setKey acc m.controller m.id)

/-- The client's mutable fields.  `sock` holds the generation number of the
currently owned socket (`none` for the null socket); `nextSock` is the ghost
counter handing out socket generations, so "a new socket was created" is
visible.  `reconnectTimer` likewise holds the ghost identity of the pending
`setTimeout`, with `nextTimer` the counter, so "exactly one timer was
scheduled" is visible.  `sent` is the ghost trace of commands written to the
socket (each write appends the `\r` terminator on the wire). -/
structure ClientState where
  opt : NormOptions
  sock : Option Nat
  nextSock : Nat
  buffer : List Char
  values : List (String × MeterValue)
  byController : List (Nat × String)
  connected : Bool
  lastConnectEpoch : Option Nat
  lastError : Option String
  reconnectTimer : Option Nat
  nextTimer : Nat
  sent : List String
deriving DecidableEq

/-- The constructor `new SymetrixMeterClient(opt)`. -/
def mkClient (o : Options) : ClientState :=
  { opt := normalizeOptions o, sock := none, nextSock := 0, buffer := [],
    values := initValues o.meters [], byController := buildIndex o.meters [],
    connected := false, lastConnectEpoch := none, lastError := none,
    reconnectTimer := none, nextTimer := 0, sent := [] }

/-- The reconnect back-off passed to `setTimeout` in `scheduleReconnect`,
in milliseconds. -/
def RECONNECT_DELAY_MS : Nat := 3000

/-- The method `send(cmd)`: `this.sock?.write(cmd + "\r")` — a write happens
only while a socket is owned. -/
def send (s : ClientState) (cmd : String) : ClientState :=
  if s.sock.isSome then { s with sent := s.sent ++ [cmd] } else s

/-- The method `stop()`: clear the reconnect timer, drop the connected flag,
destroy and null the socket.  (Destroying a live socket makes Node emit a
`close` event for it on a later tick; the handlers registered on that socket
stay attached, which matters for the stop/reconnect analysis below.) -/
def stop (s : ClientState) : ClientState :=
  { s with reconnectTimer := none, connected := false, sock := none }

/-- The method `scheduleReconnect()`: do nothing when a timer is already
pending, otherwise arm one `setTimeout(connect, 3000)`. -/
def scheduleReconnect (s : ClientState) : ClientState :=
  if s.reconnectTimer.isSome then s
  else { s with reconnectTimer := some s.nextTimer, nextTimer := s.nextTimer + 1 }

/-- The method `connect()`: first `stop()`, then create and own a fresh
socket (`new net.Socket()`), whose `connect` call completes asynchronously. -/
def connect (s : ClientState) : ClientState :=
  let s1 := stop s
  { s1 with sock := some s1.nextSock, nextSock := s1.nextSock + 1 }

/-- The method `start()`: a no-op on an empty meter list, otherwise
`connect()`. -/
def start (s : ClientState) : ClientState :=
  if s.opt.meters.isEmpty then s else connect s

/-- The `setTimeout` callback armed by `scheduleReconnect`: null the timer
field, then `connect()`. -/
def timerFire (s : ClientState) : ClientState :=
  connect { s with reconnectTimer := none }

/-- The configuration commands the `connect` handler sends, in order:
quiet mode, echo mode, global push enable, push interval (only when the
configured interval is truthy, i.e. a non-zero number), push threshold (only
when one is configured, floored and clamped to [0, 65535], the same value for
both arguments), then one `PUE` per meter definition in configuration
order. -/
def connectCommands (o : NormOptions) : List String :=
  (if o.quietMode then ["SQ 1"] else []) ++
  (if o.echoMode = false then ["EH 0"] else []) ++
  ["PU 1"] ++
  (match o.pushIntervalMs with
   | some i => if i ≠ 0 then ["PUI " ++ toString i] else []
   | none => []) ++
  (match o.pushThresholdMeter with
   | some t => ["PUT " ++ toString (max 0 (min 65535 t)) ++ " " ++
                toString (max 0 (min 65535 t))]
   | none => []) ++
  o.meters.map (fun m => "PUE " ++ toString m.controller)

/-- The socket `connect` handler: mark connected, clear the last error,
stamp the connect epoch, then send the configuration sequence. -/
def onConnect (now : Nat) (s : ClientState) : ClientState :=
  (connectCommands s.opt).foldl send
    { s with connected := true, lastError := none, lastConnectEpoch := some now }

/-- The update `this.values[id].raw = v; this.values[id].lastEpoch = now`
performed for a routed frame.  (The id always names an existing record, since
it comes out of `byController`; on a missing id the model leaves the map
unchanged.) -/
def updateValue (values : List (String × MeterValue)) (id : String)
    (v now : Nat) : List (String × MeterValue) :=
  match getKey values id with
  | none => values
  | some mv => setKey values id { mv with raw := some v, lastEpoch := some now }

/-- The body of the data handler's `for` loop for one complete segment:
trim, skip blank lines and unparsable lines, route the decoded controller
through `byController`, update the matching record. -/
def processLineStep (byc : List (Nat × String)) (now : Nat)
    (vs : List (String × MeterValue)) (rawLine : List Char) :
    List (String × MeterValue) :=
  match decodeLine rawLine with
  | none => vs
  | some cv =>
    match getKey byc cv.1 with
    | none => vs
    | some id => updateValue vs id cv.2 now

/-- The data handler's `for` loop over all complete segments, in order. -/
def processParts (byc : List (Nat × String)) (now : Nat)
    (values : List (String × MeterValue)) (parts : List (List Char)) :
    List (String × MeterValue) :=
  parts.foldl (processLineStep byc now) values

/-- The socket `data` handler: append the chunk to the buffer, split on the
terminator, keep the unterminated remainder, process every complete
segment. -/
def onData (chunk : List Char) (now : Nat) (s : ClientState) : ClientState :=
  let sp := splitCR (s.buffer ++ chunk)
  { s with buffer := sp.2,
           values := processParts s.byController now s.values sp.1 }

/-- The socket `error` handler: record the message, nothing else. -/
def onError (msg : String) (s : ClientState) : ClientState :=
  { s with lastError := some msg }

/-- The socket `close` handler: drop the connected flag and schedule a
reconnect. -/
def onClose (s : ClientState) : ClientState :=
  scheduleReconnect { s with connected := false }

/-- The snapshot record returned by `snapshot()`. -/
structure Snapshot where
  connected : Bool
  lastConnectEpoch : Option Nat
  lastError : Option String
  meters : List MeterValue
deriving DecidableEq

/-- The method `snapshot()`: package the flags and `Object.values(values)`
(the records in insertion order).  This pure function captures the field
values readable at call time.  Beware that in the source only the array is
fresh: its elements are the live `MeterValue` objects of `this.values`,
which later `data` events mutate in place — the returned records are NOT
copies.  That aliasing is modelled by `aliasedRead` below and exhibited by
the stale-snapshot read-through theorem. -/
def snapshot (s : ClientState) : Snapshot :=
  { connected := s.connected, lastConnectEpoch := s.lastConnectEpoch,
    lastError := s.lastError, meters := s.values.map (fun p => p.2) }

/-- Everything that can happen to a client after construction: the public
methods and the socket/timer callbacks.  Reachability below quantifies over
arbitrary interleavings of these, which over-approximates the traces the
Node event loop can actually produce (a sound basis for invariants). -/
inductive Event where
  | evStart : Event
  | evStop : Event
  | evTimer : Event
  | evConnect (now : Nat) : Event
  | evData (chunk : List Char) (now : Nat) : Event
  | evError (msg : String) : Event
  | evClose : Event
deriving DecidableEq

/-- Apply one event to the client state. -/
def applyEvent (s : ClientState) : Event → ClientState
  | .evStart => start s
  | .evStop => stop s
  | .evTimer => timerFire s
  | .evConnect now => onConnect now s
  | .evData chunk now => onData chunk now s
  | .evError msg => onError msg s
  | .evClose => onClose s

/-- States a client constructed from `o` can be driven to by any sequence of
method calls and socket/timer events. -/
inductive Reachable (o : Options) : ClientState → Prop
  | init : Reachable o (mkClient o)
  | step {s : ClientState} (e : Event) : Reachable o s → Reachable o (applyEvent s e)

theorem getKey_setKey_self {α β : Type} [DecidableEq α]
    (l : List (α × β)) (k : α) (v : β) : getKey (setKey l k v) k = some v := by
  induction l with
  | nil => simp [setKey, getKey]
  | cons p rest ih =>
    by_cases hp : p.1 = k
    · simp [setKey, getKey, hp]
    · simp [setKey, getKey, hp, ih]

theorem getKey_setKey_ne {α β : Type} [DecidableEq α]
    (l : List (α × β)) (k : α) (v : β) (q : α) (h : q ≠ k) :
    getKey (setKey l k v) q = getKey l q := by
  induction l with
  | nil => simp [setKey, getKey, Ne.symm h]
  | cons p rest ih =>
    by_cases hp : p.1 = k
    · simp [setKey, getKey, hp, Ne.symm h]
    · simp [setKey, getKey, hp, ih]

theorem mem_setKey {α β : Type} [DecidableEq α]
    {l : List (α × β)} {k : α} {v : β} {p : α × β} (h : p ∈ setKey l k v) :
    p ∈ l ∨ p = (k, v) := by
  induction l with
  | nil => simpa [setKey] using h
  | cons q rest ih =>
    by_cases hq : q.1 = k
    · simp only [setKey, if_pos hq, List.mem_cons] at h
      rcases h with h | h
      · exact Or.inr h
      · exact Or.inl (List.mem_cons_of_mem _ h)
    · simp only [setKey, if_neg hq, List.mem_cons] at h
      rcases h with h | h
      · exact Or.inl (h ▸ List.mem_cons_self _ _)
      · rcases ih h with h | h
        · exact Or.inl (List.mem_cons_of_mem _ h)
        · exact Or.inr h

theorem setKey_of_fresh {α β : Type} [DecidableEq α]
    {l : List (α × β)} {k : α} (v : β) (h : ∀ p ∈ l, p.1 ≠ k) :
    setKey l k v = l ++ [(k, v)] := by
  induction l with
  | nil => simp [setKey]
  | cons p rest ih =>
    have hp : p.1 ≠ k := h p (List.mem_cons_self _ _)
    simp only [setKey, if_neg hp, List.cons_append, List.cons.injEq, true_and]
    exact ih (fun q hq => h q (List.mem_cons_of_mem _ hq))

theorem getKey_buildIndex_of_absent (defs : List MeterDef) (acc : List (Nat × String))
    (c : Nat) (h : ∀ m ∈ defs, m.controller ≠ c) :
    getKey (buildIndex defs acc) c = getKey acc c := by
  induction defs generalizing acc with
  | nil => simp [buildIndex]
  | cons d rest ih =>
    have hd : d.controller ≠ c := h d (List.mem_cons_self _ _)
    rw [buildIndex, ih _ (fun m hm => h m (List.mem_cons_of_mem _ hm)),
      getKey_setKey_ne _ _ _ _ (fun hh => hd hh.symm)]

theorem getKey_buildIndex_self (defs : List MeterDef) (acc : List (Nat × String))
    (m : MeterDef) (hm : m ∈ defs)
    (hnd : (defs.map MeterDef.controller).Nodup) :
    getKey (buildIndex defs acc) m.controller = some m.id := by
  induction defs generalizing acc with
  | nil => cases hm
  | cons d rest ih =>
    rw [List.map_cons, List.nodup_cons] at hnd
    rcases List.mem_cons.mp hm with rfl | hm
    · have habs : ∀ x ∈ rest, x.controller ≠ m.controller := by
        intro x hx he
        exact hnd.1 (he ▸ List.mem_map_of_mem MeterDef.controller hx)
      rw [buildIndex, getKey_buildIndex_of_absent _ _ _ habs, getKey_setKey_self]
    · rw [buildIndex]
      exact ih _ hm hnd.2

/-- Decimal digit character for a value 0..9 (the zero-padded rendering a
Symetrix device uses in push frames). -/
def digitChar : Nat → Char
  | 0 => '0' | 1 => '1' | 2 => '2' | 3 => '3' | 4 => '4'
  | 5 => '5' | 6 => '6' | 7 => '7' | 8 => '8' | _ => '9'

/-- The 5-digit zero-padded rendering of a number, per the wire format
`#<CONTROLLER>=<VALUE>` (both 5 digits, leading zeros). -/
def pad5 (n : Nat) : List Char :=
  [digitChar (n / 10000 % 10), digitChar (n / 1000 % 10), digitChar (n / 100 % 10),
   digitChar (n / 10 % 10), digitChar (n % 10)]

/-- A well-formed inbound push frame, terminator excluded. -/
def frameChars (c v : Nat) : List Char :=
  '#' :: (pad5 c ++ '=' :: pad5 v)

theorem isDig_digitChar (d : Nat) : isDig (digitChar d) = true := by
  rcases d with _ | _ | _ | _ | _ | _ | _ | _ | _ | d <;> rfl

theorem digitVal_digitChar (d : Nat) (h : d ≤ 9) : digitVal (digitChar d) = d := by
  interval_cases d <;> rfl

theorem digitChar_not_ws (d : Nat) : isJsWhitespace (digitChar d) = false := by
  rcases d with _ | _ | _ | _ | _ | _ | _ | _ | _ | d <;> rfl

theorem digitChar_ne_cr (d : Nat) : digitChar d ≠ '\r' := by
  intro hcon
  have h2 := isDig_digitChar d
  rw [hcon] at h2
  exact absurd h2 (by decide)

theorem isDig_toNat_le {c : Char} (h : isDig c = true) : digitVal c ≤ 9 := by
  simp only [isDig, Bool.and_eq_true, decide_eq_true_eq] at h
  unfold digitVal
  omega

theorem toNum5_le (a b c d e : Char) (ha : isDig a = true) (hb : isDig b = true)
    (hc : isDig c = true) (hd : isDig d = true) (he : isDig e = true) :
    toNum5 a b c d e ≤ 99999 := by
  have := isDig_toNat_le ha
  have := isDig_toNat_le hb
  have := isDig_toNat_le hc
  have := isDig_toNat_le hd
  have := isDig_toNat_le he
  unfold toNum5
  omega

theorem parsePushLine_bound {l : List Char} {c v : Nat}
    (h : parsePushLine l = some (c, v)) : c ≤ 99999 ∧ v ≤ 99999 := by
  unfold parsePushLine at h
  split at h
  · rename_i a b c1 d e f g h1 i j
    split at h
    · rename_i hdig
      simp only [Bool.and_eq_true] at hdig
      injection h with h
      injection h with h1 h2
      subst h1
      subst h2
      exact ⟨toNum5_le _ _ _ _ _ hdig.1.1.1.1.1.1.1.1.1 hdig.1.1.1.1.1.1.1.1.2
          hdig.1.1.1.1.1.1.1.2 hdig.1.1.1.1.1.1.2 hdig.1.1.1.1.1.2,
        toNum5_le _ _ _ _ _ hdig.1.1.1.1.2 hdig.1.1.1.2 hdig.1.1.2 hdig.1.2 hdig.2⟩
    · cases h
  · cases h

theorem decodeLine_bound {l : List Char} {c v : Nat}
    (h : decodeLine l = some (c, v)) : c ≤ 99999 ∧ v ≤ 99999 := by
  have h2 : parsePushLine (trim l) = some (c, v) := by
    unfold decodeLine at h
    by_cases he : (trim l).isEmpty
    · simp [he] at h
    · simpa [he] using h
  exact parsePushLine_bound h2

theorem toNum5_pad5 (n : Nat) (h : n ≤ 99999) :
    toNum5 (digitChar (n / 10000 % 10)) (digitChar (n / 1000 % 10))
      (digitChar (n / 100 % 10)) (digitChar (n / 10 % 10)) (digitChar (n % 10)) = n := by
  unfold toNum5
  rw [digitVal_digitChar _ (by omega), digitVal_digitChar _ (by omega),
    digitVal_digitChar _ (by omega), digitVal_digitChar _ (by omega),
    digitVal_digitChar _ (by omega)]
  omega

theorem parsePushLine_frame (c v : Nat) (hc : c ≤ 99999) (hv : v ≤ 99999) :
    parsePushLine (frameChars c v) = some (c, v) := by
  simp [frameChars, pad5, parsePushLine, isDig_digitChar,
    toNum5_pad5 c hc, toNum5_pad5 v hv]

theorem dropWhile_of_none {l : List Char} {q : Char → Bool}
    (h : ∀ x ∈ l, q x = false) : l.dropWhile q = l := by
  cases l with
  | nil => rfl
  | cons c rest => simp [List.dropWhile_cons, h c (List.mem_cons_self _ _)]

theorem trim_of_clean {l : List Char}
    (h : ∀ x ∈ l, isJsWhitespace x = false) : trim l = l := by
  unfold trim
  rw [dropWhile_of_none h, dropWhile_of_none, List.reverse_reverse]
  intro x hx
  exact h x (List.mem_reverse.mp hx)

theorem splitCR_line {l : List Char} (h : '\r' ∉ l) :
    splitCR (l ++ ['\r']) = ([l], []) := by
  induction l with
  | nil => rfl
  | cons c rest ih =>
    have hc : c ≠ '\r' := fun hh => h (hh ▸ List.mem_cons_self _ _)
    rw [List.cons_append, splitCR, if_neg hc, ih (fun hh => h (List.mem_cons_of_mem _ hh))]
    rfl

theorem frame_clean (c v : Nat) :
    ∀ x ∈ frameChars c v, isJsWhitespace x = false ∧ x ≠ '\r' := by
  intro x hx
  simp only [frameChars, pad5, List.mem_cons, List.cons_append, List.nil_append] at hx
  rcases hx with rfl | rfl | rfl | rfl | rfl | rfl | rfl | rfl | rfl | rfl | rfl | rfl | h
  all_goals first
    | exact ⟨by rfl, by decide⟩
    | exact ⟨digitChar_not_ws _, digitChar_ne_cr _⟩
    | cases h

theorem frame_no_cr (c v : Nat) : '\r' ∉ frameChars c v :=
  fun h => (frame_clean c v '\r' h).2 rfl

theorem decodeLine_frame (c v : Nat) (hc : c ≤ 99999) (hv : v ≤ 99999) :
    decodeLine (frameChars c v) = some (c, v) := by
  have h1 : trim (frameChars c v) = frameChars c v :=
    trim_of_clean (fun x hx => (frame_clean c v x hx).1)
  have h2 : (frameChars c v).isEmpty = false := rfl
  simp only [decodeLine, h1, h2]
  exact parsePushLine_frame c v hc hv

theorem foldl_send_core (cmds : List String) (s : ClientState) :
    ((cmds.foldl send s).opt = s.opt) ∧
    ((cmds.foldl send s).byController = s.byController) ∧
    ((cmds.foldl send s).values = s.values) := by
  induction cmds generalizing s with
  | nil => exact ⟨rfl, rfl, rfl⟩
  | cons c cs ih =>
    have hsend : (send s c).opt = s.opt ∧ (send s c).byController = s.byController ∧
        (send s c).values = s.values := by
      unfold send
      split <;> exact ⟨rfl, rfl, rfl⟩
    rw [List.foldl_cons]
    rcases ih (send s c) with ⟨h1, h2, h3⟩
    exact ⟨h1.trans hsend.1, h2.trans hsend.2.1, h3.trans hsend.2.2⟩

theorem foldl_send_sent (cmds : List String) (s : ClientState) (h : s.sock.isSome = true) :
    ((cmds.foldl send s).sent = s.sent ++ cmds) ∧ ((cmds.foldl send s).sock = s.sock) := by
  induction cmds generalizing s with
  | nil => simp
  | cons c cs ih =>
    have hsend : send s c = { s with sent := s.sent ++ [c] } := by
      unfold send
      rw [if_pos h]
    rw [List.foldl_cons, hsend]
    rcases ih { s with sent := s.sent ++ [c] } h with ⟨h1, h2⟩
    exact ⟨by rw [h1]; simp, h2⟩

theorem applyEvent_opt (s : ClientState) (e : Event) : (applyEvent s e).opt = s.opt := by
  cases e with
  | evStart =>
    show (start s).opt = s.opt
    unfold start connect stop
    split <;> rfl
  | evStop => rfl
  | evTimer => rfl
  | evConnect now => exact (foldl_send_core _ _).1
  | evData chunk now => rfl
  | evError msg => rfl
  | evClose =>
    show (onClose s).opt = s.opt
    unfold onClose scheduleReconnect
    split <;> rfl

theorem applyEvent_byController (s : ClientState) (e : Event) :
    (applyEvent s e).byController = s.byController := by
  cases e with
  | evStart =>
    show (start s).byController = s.byController
    unfold start connect stop
    split <;> rfl
  | evStop => rfl
  | evTimer => rfl
  | evConnect now => exact (foldl_send_core _ _).2.1
  | evData chunk now => rfl
  | evError msg => rfl
  | evClose =>
    show (onClose s).byController = s.byController
    unfold onClose scheduleReconnect
    split <;> rfl

theorem reachable_opt {o : Options} {s : ClientState} (hr : Reachable o s) :
    s.opt = normalizeOptions o := by
  induction hr with
  | init => rfl
  | step e hr ih => rw [applyEvent_opt, ih]

theorem reachable_byController {o : Options} {s : ClientState} (hr : Reachable o s) :
    s.byController = buildIndex o.meters [] := by
  induction hr with
  | init => rfl
  | step e hr ih => rw [applyEvent_byController, ih]

/-- Decidable form of the amended raw-range invariant: every record's `raw`
is null or at most 99999 (the largest 5-digit wire value). -/
def rawOk (vals : List (String × MeterValue)) : Bool :=
  vals.all (fun p => decide (p.2.raw.getD 0 ≤ 99999))

theorem rawOk_iff (vals : List (String × MeterValue)) :
    rawOk vals = true ↔ ∀ p ∈ vals, p.2.raw.getD 0 ≤ 99999 := by
  simp [rawOk]

theorem mem_initValues {defs : List MeterDef} {acc : List (String × MeterValue)}
    {p : String × MeterValue} (h : p ∈ initValues defs acc) :
    p ∈ acc ∨ p.2.raw = none := by
  induction defs generalizing acc with
  | nil => exact Or.inl h
  | cons d rest ih =>
    rcases ih h with h2 | h2
    · rcases mem_setKey h2 with h3 | h3
      · exact Or.inl h3
      · right
        rw [h3]
    · exact Or.inr h2

theorem rawOk_updateValue {vals : List (String × MeterValue)} {v : Nat}
    (id : String) (now : Nat) (h : rawOk vals = true) (hv : v ≤ 99999) :
    rawOk (updateValue vals id v now) = true := by
  unfold updateValue
  cases hg : getKey vals id with
  | none => exact h
  | some mv =>
    rw [rawOk_iff] at h ⊢
    intro p hp
    rcases mem_setKey hp with hmem | rfl
    · exact h p hmem
    · simpa using hv

theorem rawOk_processLineStep (byc : List (Nat × String)) (now : Nat)
    {vals : List (String × MeterValue)} (r : List Char) (h : rawOk vals = true) :
    rawOk (processLineStep byc now vals r) = true := by
  cases hd : decodeLine r with
  | none => simpa [processLineStep, hd] using h
  | some cv =>
    cases hg : getKey byc cv.1 with
    | none => simpa [processLineStep, hd, hg] using h
    | some id =>
      simpa [processLineStep, hd, hg] using
        rawOk_updateValue id now h (decodeLine_bound hd).2

theorem rawOk_processParts (byc : List (Nat × String)) (now : Nat)
    {vals : List (String × MeterValue)} (parts : List (List Char))
    (h : rawOk vals = true) : rawOk (processParts byc now vals parts) = true := by
  induction parts generalizing vals with
  | nil => exact h
  | cons p ps ih =>
    simp only [processParts, List.foldl_cons]
    exact ih (rawOk_processLineStep byc now p h)

theorem reachable_rawOk {o : Options} {s : ClientState} (hr : Reachable o s) :
    rawOk s.values = true := by
  induction hr with
  | init =>
    rw [rawOk_iff]
    intro p hp
    rcases mem_initValues hp with h | h
    · cases h
    · simp [h]
  | @step t e hr ih =>
    cases e with
    | evStart =>
      show rawOk (start t).values = true
      unfold start connect stop
      split <;> exact ih
    | evStop => exact ih
    | evTimer => exact ih
    | evConnect now =>
      show rawOk (onConnect now t).values = true
      unfold onConnect
      rw [(foldl_send_core _ _).2.2]
      exact ih
    | evData chunk now =>
      exact rawOk_processParts _ _ _ ih
    | evError msg => exact ih
    | evClose =>
      show rawOk (onClose t).values = true
      unfold onClose scheduleReconnect
      split <;> exact ih

/-- The identifying fields of one value-map entry agree with one meter
definition: the key is the definition's id and the record carries the
definition's id, label and controller. -/
def MeterRel (m : MeterDef) (p : String × MeterValue) : Prop :=
  p.1 = m.id ∧ p.2.id = m.id ∧ p.2.label = m.label ∧ p.2.controller = m.controller

/-- The value map lines up with the definition list entry by entry, in
order. -/
def MetersMatch (defs : List MeterDef) (vals : List (String × MeterValue)) : Prop :=
  List.Forall₂ MeterRel defs vals

theorem forall₂_map_self {α β : Type} (R : α → β → Prop) (f : α → β)
    (l : List α) (h : ∀ a ∈ l, R a (f a)) : List.Forall₂ R l (l.map f) := by
  induction l with
  | nil => exact List.Forall₂.nil
  | cons a rest ih =>
    exact List.Forall₂.cons (h a (List.mem_cons_self _ _))
      (ih (fun x hx => h x (List.mem_cons_of_mem _ hx)))

theorem initValues_fresh (defs : List MeterDef) (acc : List (String × MeterValue))
    (hd : ∀ p ∈ acc, p.1 ∉ defs.map MeterDef.id)
    (hnd : (defs.map MeterDef.id).Nodup) :
    initValues defs acc =
      acc ++ defs.map (fun m => (m.id, ⟨m.id, m.label, m.controller, none, none⟩)) := by
  induction defs generalizing acc with
  | nil => simp [initValues]
  | cons d rest ih =>
    rw [List.map_cons, List.nodup_cons] at hnd
    rw [initValues, setKey_of_fresh _ (fun p hp hpk => hd p hp (by simp [hpk])),
      ih _ ?hdisj hnd.2]
    · simp
    case hdisj =>
      intro p hp
      rcases List.mem_append.mp hp with hp2 | hp2
      · exact fun hmem => hd p hp2 (List.mem_cons_of_mem _ hmem)
      · have : p = (d.id, ⟨d.id, d.label, d.controller, none, none⟩) := by simpa using hp2
        rw [this]
        exact hnd.1

theorem metersMatch_init (defs : List MeterDef)
    (hnd : (defs.map MeterDef.id).Nodup) :
    MetersMatch defs (initValues defs []) := by
  rw [initValues_fresh defs [] (by simp) hnd, List.nil_append]
  exact forall₂_map_self _ _ _ (fun m hm => ⟨rfl, rfl, rfl, rfl⟩)

theorem metersMatch_updateValue {defs : List MeterDef}
    {vals : List (String × MeterValue)} (h : MetersMatch defs vals)
    (id : String) (v now : Nat) :
    MetersMatch defs (updateValue vals id v now) := by
  induction h with
  | nil => exact List.Forall₂.nil
  | @cons m p defs2 vals2 hR htail ih =>
    by_cases hp : p.1 = id
    · have hg : getKey (p :: vals2) id = some p.2 := by simp [getKey, hp]
      have he : updateValue (p :: vals2) id v now =
          (id, { p.2 with raw := some v, lastEpoch := some now }) :: vals2 := by
        unfold updateValue
        rw [hg]
        simp [setKey, hp]
      rw [he]
      refine List.Forall₂.cons ⟨?_, hR.2.1, hR.2.2.1, hR.2.2.2⟩ htail
      rw [← hp]
      exact hR.1
    · have hg : getKey (p :: vals2) id = getKey vals2 id := by simp [getKey, hp]
      have he : updateValue (p :: vals2) id v now = p :: updateValue vals2 id v now := by
        unfold updateValue
        rw [hg]
        cases hg2 : getKey vals2 id with
        | none => rfl
        | some mv => simp [setKey, hp]
      rw [he]
      exact List.Forall₂.cons hR ih

theorem metersMatch_processLineStep (byc : List (Nat × String)) (now : Nat)
    {defs : List MeterDef} {vals : List (String × MeterValue)} (r : List Char)
    (h : MetersMatch defs vals) :
    MetersMatch defs (processLineStep byc now vals r) := by
  cases hd : decodeLine r with
  | none => simpa [processLineStep, hd] using h
  | some cv =>
    cases hg : getKey byc cv.1 with
    | none => simpa [processLineStep, hd, hg] using h
    | some id =>
      simpa [processLineStep, hd, hg] using metersMatch_updateValue h id cv.2 now

theorem metersMatch_processParts (byc : List (Nat × String)) (now : Nat)
    {defs : List MeterDef} {vals : List (String × MeterValue)}
    (parts : List (List Char)) (h : MetersMatch defs vals) :
    MetersMatch defs (processParts byc now vals parts) := by
  induction parts generalizing vals with
  | nil => exact h
  | cons p ps ih =>
    simp only [processParts, List.foldl_cons]
    exact ih (metersMatch_processLineStep byc now p h)

theorem reachable_metersMatch {o : Options} {s : ClientState}
    (hnd : (o.meters.map MeterDef.id).Nodup) (hr : Reachable o s) :
    MetersMatch o.meters s.values := by
  induction hr with
  | init => exact metersMatch_init o.meters hnd
  | @step t e hr ih =>
    cases e with
    | evStart =>
      show MetersMatch o.meters (start t).values
      unfold start connect stop
      split <;> exact ih
    | evStop => exact ih
    | evTimer => exact ih
    | evConnect now =>
      show MetersMatch o.meters (onConnect now t).values
      unfold onConnect
      rw [(foldl_send_core _ _).2.2]
      exact ih
    | evData chunk now =>
      exact metersMatch_processParts _ _ _ ih
    | evError msg => exact ih
    | evClose =>
      show MetersMatch o.meters (onClose t).values
      unfold onClose scheduleReconnect
      split <;> exact ih

theorem onData_single_line (s : ClientState) (line : List Char) (now : Nat)
    (hbuf : s.buffer = []) (hcr : '\r' ∉ line) :
    onData (line ++ ['\r']) now s =
      { s with buffer := [],
               values := processLineStep s.byController now s.values line } := by
  unfold onData
  rw [hbuf, List.nil_append, splitCR_line hcr]
  rfl

theorem getKey_mem {α β : Type} [DecidableEq α] {l : List (α × β)} {k : α} {v : β}
    (h : getKey l k = some v) : (k, v) ∈ l := by
  induction l with
  | nil => cases h
  | cons p rest ih =>
    by_cases hp : p.1 = k
    · simp only [getKey, if_pos hp] at h
      injection h with h
      have : p = (k, v) := by
        rcases p with ⟨a, b⟩
        simp only at hp h
        rw [hp, h]
      exact this ▸ List.mem_cons_self _ _
    · simp only [getKey, if_neg hp] at h
      exact List.mem_cons_of_mem _ (ih h)

theorem getKey_updateValue_self {vals : List (String × MeterValue)} {id : String}
    {mv : MeterValue} (v now : Nat) (h : getKey vals id = some mv) :
    getKey (updateValue vals id v now) id =
      some { mv with raw := some v, lastEpoch := some now } := by
  unfold updateValue
  rw [h]
  exact getKey_setKey_self _ _ _

theorem metersMatch_getKey {defs : List MeterDef} {vals : List (String × MeterValue)}
    (h : MetersMatch defs vals) (hnd : (defs.map MeterDef.id).Nodup)
    {m : MeterDef} (hm : m ∈ defs) :
    ∃ mv, getKey vals m.id = some mv ∧ mv.id = m.id ∧ mv.label = m.label ∧
      mv.controller = m.controller := by
  induction h with
  | nil => cases hm
  | @cons d p defs2 vals2 hR htail ih =>
    rcases List.mem_cons.mp hm with rfl | hm2
    · exact ⟨p.2, by simp [getKey, hR.1], hR.2.1, hR.2.2.1, hR.2.2.2⟩
    · rw [List.map_cons, List.nodup_cons] at hnd
      have hne : p.1 ≠ m.id := by
        rw [hR.1]
        intro he
        exact hnd.1 (he ▸ List.mem_map_of_mem MeterDef.id hm2)
      rcases ih hnd.2 hm2 with ⟨mv, hg, h1, h2, h3⟩
      exact ⟨mv, by simp [getKey, hne, hg], h1, h2, h3⟩

/-- C1. A complete inbound line `#CCCCC=VVVVV` whose controller CCCCC is the
controller of a configured meter definition updates that meter's record: its
`raw` becomes the 5-digit value and its `lastEpoch` the current epoch, and the
updated record (still carrying the definition's id, label and controller) is
what the next `snapshot()` returns.  Stated for any reachable client state
whose buffer is empty (so the delivered chunk is the complete line), with the
definition list's ids and controllers unique as the data model requires. -/
theorem push_frame_updates_meter (o : Options) (s : ClientState) (m : MeterDef)
    (v now : Nat) (hr : Reachable o s) (hm : m ∈ o.meters)
    (hndc : (o.meters.map MeterDef.controller).Nodup)
    (hndi : (o.meters.map MeterDef.id).Nodup)
    (hc : m.controller ≤ 99999) (hv : v ≤ 99999) (hbuf : s.buffer = []) :
    ∃ mv : MeterValue,
      getKey (onData (frameChars m.controller v ++ ['\r']) now s).values m.id = some mv ∧
      mv.raw = some v ∧ mv.lastEpoch = some now ∧
      mv.id = m.id ∧ mv.label = m.label ∧ mv.controller = m.controller ∧
      mv ∈ (snapshot (onData (frameChars m.controller v ++ ['\r']) now s)).meters := by
  rcases metersMatch_getKey (reachable_metersMatch hndi hr) hndi hm with
    ⟨mv0, hg0, hid0, hlab0, hctl0⟩
  have hroute : getKey s.byController m.controller = some m.id := by
    rw [reachable_byController hr]
    exact getKey_buildIndex_self o.meters [] m hm hndc
  have hstep : processLineStep s.byController now s.values (frameChars m.controller v) =
      updateValue s.values m.id v now := by
    simp [processLineStep, decodeLine_frame m.controller v hc hv, hroute]
  rw [onData_single_line s _ now hbuf (frame_no_cr m.controller v)]
  refine ⟨{ mv0 with raw := some v, lastEpoch := some now }, ?_, rfl, rfl, hid0, hlab0, hctl0, ?_⟩
  · show getKey (processLineStep s.byController now s.values (frameChars m.controller v)) m.id = _
    rw [hstep]
    exact getKey_updateValue_self v now hg0
  · show _ ∈ (processLineStep s.byController now s.values (frameChars m.controller v)).map _
    rw [hstep]
    exact List.mem_map_of_mem _
      (getKey_mem (getKey_updateValue_self v now hg0))

/-- C1 witness: a concrete client with one meter on controller 9001, fed the
frame `#09001=00042\r`, shows the updated record in the snapshot. -/
theorem push_frame_updates_meter_witness :
    ∃ mv : MeterValue,
      getKey (onData (frameChars 9001 42 ++ ['\r']) 77
        (mkClient ⟨"h", none, none, none, none, none, [⟨"m1", "Meter", 9001⟩]⟩)).values "m1" =
        some mv ∧
      mv.raw = some 42 ∧ mv.lastEpoch = some 77 ∧
      mv.id = "m1" ∧ mv.label = "Meter" ∧ mv.controller = 9001 ∧
      mv ∈ (snapshot (onData (frameChars 9001 42 ++ ['\r']) 77
        (mkClient ⟨"h", none, none, none, none, none, [⟨"m1", "Meter", 9001⟩]⟩))).meters :=
  push_frame_updates_meter ⟨"h", none, none, none, none, none, [⟨"m1", "Meter", 9001⟩]⟩
    _ ⟨"m1", "Meter", 9001⟩ 42 77 Reachable.init (by decide) (by decide) (by decide)
    (by decide) (by decide) rfl

/-- C3. A complete inbound line that after trimming does not match the exact
`#` + 5 digits + `=` + 5 digits pattern is silently discarded: the whole
client state — value map, flags, `lastError`, buffer — is exactly what it was,
and no error is recorded. -/
theorem malformed_line_no_effect (s : ClientState) (line : List Char) (now : Nat)
    (hbuf : s.buffer = []) (hcr : '\r' ∉ line)
    (hnm : parsePushLine (trim line) = none) :
    onData (line ++ ['\r']) now s = s := by
  rw [onData_single_line s line now hbuf hcr]
  have hstep : processLineStep s.byController now s.values line = s.values := by
    simp [processLineStep, decodeLine, hnm]
  rw [hstep, ← hbuf]

/-- C3 witness: the malformed lines `#123=45` and `#12345=456789` leave a
freshly constructed client's state untouched. -/
theorem malformed_line_no_effect_witness :
    onData ("#123=45".toList ++ ['\r']) 9
      (mkClient ⟨"h", none, none, none, none, none, [⟨"m1", "Meter", 9001⟩]⟩) =
      mkClient ⟨"h", none, none, none, none, none, [⟨"m1", "Meter", 9001⟩]⟩ :=
  malformed_line_no_effect
    (mkClient ⟨"h", none, none, none, none, none, [⟨"m1", "Meter", 9001⟩]⟩)
    "#123=45".toList 9 rfl (by decide) (by decide)

/-- C10. A well-formed frame whose controller is not the controller of any
configured meter definition leaves the whole client state unchanged: no
value-map entry is created or updated, no timestamp changes, no error is
recorded. -/
theorem unmatched_controller_no_effect (o : Options) (s : ClientState)
    (c v now : Nat) (hr : Reachable o s)
    (habs : ∀ m ∈ o.meters, m.controller ≠ c)
    (hc : c ≤ 99999) (hv : v ≤ 99999) (hbuf : s.buffer = []) :
    onData (frameChars c v ++ ['\r']) now s = s := by
  rw [onData_single_line s _ now hbuf (frame_no_cr c v)]
  have hgk : getKey s.byController c = none := by
    rw [reachable_byController hr, getKey_buildIndex_of_absent _ _ _ habs]
    rfl
  have hstep : processLineStep s.byController now s.values (frameChars c v) = s.values := by
    simp [processLineStep, decodeLine_frame c v hc hv, hgk]
  rw [hstep, ← hbuf]

/-- C10 witness: a frame for controller 7, not configured on a client that
only tracks controller 9001, is a no-op. -/
theorem unmatched_controller_no_effect_witness :
    onData (frameChars 7 5 ++ ['\r']) 11
      (mkClient ⟨"h", none, none, none, none, none, [⟨"m1", "Meter", 9001⟩]⟩) =
      mkClient ⟨"h", none, none, none, none, none, [⟨"m1", "Meter", 9001⟩]⟩ :=
  unmatched_controller_no_effect
    ⟨"h", none, none, none, none, none, [⟨"m1", "Meter", 9001⟩]⟩
    (mkClient ⟨"h", none, none, none, none, none, [⟨"m1", "Meter", 9001⟩]⟩)
    7 5 11 Reachable.init (by decide) (by decide) (by decide) rfl

theorem onConnect_sent (s : ClientState) (now : Nat) (h : s.sock.isSome = true) :
    (onConnect now s).sent = s.sent ++ connectCommands s.opt := by
  unfold onConnect
  exact (foldl_send_sent (connectCommands s.opt)
    { s with connected := true, lastError := none, lastConnectEpoch := some now } h).1

/-- C4. On a successful TCP connect of a client built with the default
quiet/echo options, a push interval of at least 1 and a numeric push
threshold, the commands written before any inbound data are exactly, in
order: `SQ 1`, `EH 0`, `PU 1`, `PUI <interval>`, `PUT <t> <t>` with
`t` the threshold floored (the identity on the integer model) and clamped
to [0, 65535] and sent twice, then one `PUE <controller>` per meter
definition in the order supplied.  (A connect event presupposes `start()`
opened a socket, hence the non-empty meter list.) -/
theorem connect_sends_config (o : Options) (i t : Int) (now : Nat)
    (hq : o.quietMode = none) (he : o.echoMode = none)
    (hi : o.pushIntervalMs = some i) (hi1 : 1 ≤ i)
    (ht : o.pushThresholdMeter = some t) (hne : o.meters ≠ []) :
    (onConnect now (start (mkClient o))).sent =
      ["SQ 1", "EH 0", "PU 1", "PUI " ++ toString i,
       "PUT " ++ toString (max 0 (min 65535 t)) ++ " " ++
         toString (max 0 (min 65535 t))] ++
      o.meters.map (fun m => "PUE " ++ toString m.controller) := by
  have hie : (mkClient o).opt.meters.isEmpty = false := by
    show o.meters.isEmpty = false
    rcases hms : o.meters with _ | ⟨d, ds⟩
    · exact absurd hms hne
    · rfl
  have hstart : start (mkClient o) = connect (mkClient o) := by
    unfold start
    rw [hie]
    rfl
  have hsock : (start (mkClient o)).sock.isSome = true := by
    rw [hstart]
    rfl
  have hsent : (start (mkClient o)).sent = [] := by
    rw [hstart]
    rfl
  have hopt : (start (mkClient o)).opt = normalizeOptions o := by
    rw [hstart]
    rfl
  have hi0 : i ≠ 0 := by omega
  rw [onConnect_sent _ now hsock, hsent, hopt]
  simp [connectCommands, normalizeOptions, hq, he, hi, ht, hi0]

/-- C4 witness: interval 200, threshold 50, two meters, yields the exact
command sequence. -/
theorem connect_sends_config_witness :
    (onConnect 5 (start (mkClient
        ⟨"dsp", none, none, none, some 200, some 50,
         [⟨"a", "A", 9001⟩, ⟨"b", "B", 9002⟩]⟩))).sent =
      ["SQ 1", "EH 0", "PU 1", "PUI " ++ toString (200 : Int),
       "PUT " ++ toString (max 0 (min 65535 (50 : Int))) ++ " " ++
         toString (max 0 (min 65535 (50 : Int)))] ++
      [⟨"a", "A", 9001⟩, (⟨"b", "B", 9002⟩ : MeterDef)].map
        (fun m => "PUE " ++ toString m.controller) :=
  connect_sends_config
    ⟨"dsp", none, none, none, some 200, some 50, [⟨"a", "A", 9001⟩, ⟨"b", "B", 9002⟩]⟩
    200 50 5 rfl rfl rfl (by decide) rfl (by decide)

/-- C6. On a running client with no reconnect timer pending, a socket failure
that raises both an `error` and a `close` event produces exactly one scheduled
reconnect: the error handler changes nothing but `lastError`; the close
handler drops the connected flag and arms one timer (consuming exactly one
timer identity); and a duplicate close finds the timer pending and changes
nothing further. -/
theorem error_then_close_one_reconnect (s : ClientState) (msg : String)
    (h : s.reconnectTimer = none) :
    onError msg s = { s with lastError := some msg } ∧
    (onClose (onError msg s)).connected = false ∧
    (onClose (onError msg s)).reconnectTimer = some s.nextTimer ∧
    (onClose (onError msg s)).nextTimer = s.nextTimer + 1 ∧
    onClose (onClose (onError msg s)) = onClose (onError msg s) := by
  rcases s with ⟨o1, so, ns, bf, vl, bc, cn, lc, le, rt, nt, st⟩
  simp only at h
  subst h
  exact ⟨rfl, rfl, rfl, rfl, rfl⟩

/-- C6 witness: the handlers applied to a freshly constructed client. -/
theorem error_then_close_one_reconnect_witness :
    onError "refused" (mkClient ⟨"h", none, none, none, none, none, [⟨"m1", "M", 1⟩]⟩) =
      { mkClient ⟨"h", none, none, none, none, none, [⟨"m1", "M", 1⟩]⟩ with
          lastError := some "refused" } ∧
    (onClose (onError "refused"
      (mkClient ⟨"h", none, none, none, none, none, [⟨"m1", "M", 1⟩]⟩))).connected = false ∧
    (onClose (onError "refused"
      (mkClient ⟨"h", none, none, none, none, none, [⟨"m1", "M", 1⟩]⟩))).reconnectTimer =
      some (mkClient ⟨"h", none, none, none, none, none, [⟨"m1", "M", 1⟩]⟩).nextTimer ∧
    (onClose (onError "refused"
      (mkClient ⟨"h", none, none, none, none, none, [⟨"m1", "M", 1⟩]⟩))).nextTimer =
      (mkClient ⟨"h", none, none, none, none, none, [⟨"m1", "M", 1⟩]⟩).nextTimer + 1 ∧
    onClose (onClose (onError "refused"
      (mkClient ⟨"h", none, none, none, none, none, [⟨"m1", "M", 1⟩]⟩))) =
      onClose (onError "refused"
        (mkClient ⟨"h", none, none, none, none, none, [⟨"m1", "M", 1⟩]⟩)) :=
  error_then_close_one_reconnect
    (mkClient ⟨"h", none, none, none, none, none, [⟨"m1", "M", 1⟩]⟩) "refused" rfl

/-- The externally callable operations (the socket and timer callbacks cannot
fire for a client that never creates a socket or arms a timer). -/
inductive ExtOp where
  | opStart : ExtOp
  | opStop : ExtOp
deriving DecidableEq

/-- Apply one public method call. -/
def applyExtOp (s : ClientState) : ExtOp → ClientState
  | .opStart => start s
  | .opStop => stop s

/-- C9. A client constructed with an empty meter-definition list is inert:
any sequence of `start()`/`stop()` calls leaves the state exactly as
constructed — in particular `sock` stays null and the socket-generation
counter stays 0, so no socket is ever opened (and hence no socket or timer
callback can ever fire) — and `snapshot()` returns `connected: false` with
`meters: []`. -/
theorem empty_meters_inert (o : Options) (ops : List ExtOp) (h : o.meters = []) :
    ops.foldl applyExtOp (mkClient o) = mkClient o ∧
    (mkClient o).sock = none ∧ (mkClient o).nextSock = 0 ∧
    snapshot (mkClient o) = ⟨false, none, none, []⟩ := by
  have hfix : ∀ op : ExtOp, applyExtOp (mkClient o) op = mkClient o := by
    intro op
    cases op with
    | opStart =>
      show start (mkClient o) = mkClient o
      unfold start
      rw [if_pos]
      show (mkClient o).opt.meters.isEmpty = true
      show o.meters.isEmpty = true
      rw [h]
      rfl
    | opStop => rfl
  have hfold : ∀ l : List ExtOp, l.foldl applyExtOp (mkClient o) = mkClient o := by
    intro l
    induction l with
    | nil => rfl
    | cons op rest ih => rw [List.foldl_cons, hfix op, ih]
  refine ⟨hfold ops, rfl, rfl, ?_⟩
  show Snapshot.mk _ _ _ ((initValues o.meters []).map _) = _
  rw [h]
  rfl

/-- C9 witness: start/stop/start on an empty-list client is the identity. -/
theorem empty_meters_inert_witness :
    [ExtOp.opStart, ExtOp.opStop, ExtOp.opStart].foldl applyExtOp
      (mkClient ⟨"h", some 48631, none, none, some 200, some 50, []⟩) =
      mkClient ⟨"h", some 48631, none, none, some 200, some 50, []⟩ ∧
    (mkClient ⟨"h", some 48631, none, none, some 200, some 50, []⟩).sock = none ∧
    (mkClient ⟨"h", some 48631, none, none, some 200, some 50, []⟩).nextSock = 0 ∧
    snapshot (mkClient ⟨"h", some 48631, none, none, some 200, some 50, []⟩) =
      ⟨false, none, none, []⟩ :=
  empty_meters_inert ⟨"h", some 48631, none, none, some 200, some 50, []⟩
    [ExtOp.opStart, ExtOp.opStop, ExtOp.opStart] rfl

/-- The concrete client configuration used to exhibit the stop/reconnect
defect. -/
def c5Opts : Options :=
  ⟨"dsp.local", none, none, none, some 200, some 50, [⟨"m1", "Meter 1", 9001⟩]⟩

/-- A running, connected client (socket generation 0) on which `stop()` has
just returned. -/
def c5Stopped : ClientState := stop (onConnect 100 (start (mkClient c5Opts)))

/-- C5 (defect evidence).  `stop()` itself clears the timer and nulls the
socket — but it neither detaches the old socket's handlers nor guards them by
socket identity, and Node emits a `close` event for a destroyed socket on a
later tick.  When that stale `close` handler runs (the same handler
`connect()` registered, operating unconditionally on `this`), it arms a
reconnect timer even though the client is stopped, and when that timer fires,
`connect()` opens a fresh socket (generation 1) although `start()` was never
called again.  So an event from the previously active socket mutates state
after `stop()` returns, contradicting the claim. -/
theorem stop_stale_close_reconnects :
    c5Stopped.reconnectTimer = none ∧ c5Stopped.sock = none ∧
    c5Stopped.connected = false ∧
    (onClose c5Stopped).reconnectTimer = some 0 ∧
    (onClose c5Stopped) ≠ c5Stopped ∧
    (timerFire (onClose c5Stopped)).sock = some 1 := by
  decide

/-- The concrete client configuration used for the raw-range analysis: one
meter on controller 1. -/
def c7Opts : Options := ⟨"h", none, none, none, none, none, [⟨"m1", "M", 1⟩]⟩

/-- A reachable state of that client: started, connected, then fed the
syntactically valid frame `#00001=99999\r`, whose 5-digit value exceeds
65535. -/
def c7State : ClientState :=
  applyEvent (applyEvent (applyEvent (mkClient c7Opts) .evStart) (.evConnect 10))
    (.evData (frameChars 1 99999 ++ ['\r']) 50)

/-- C7 counterexample: the claim "every raw is null or in [0, 65535] in every
reachable state" is false — the state `c7State` is reachable (started,
connected, one data event) and its snapshot holds `raw = 99999 > 65535`,
because `parsePushLine` accepts any 5-digit value and the data handler stores
it unclamped. -/
theorem raw_range_counterexample :
    Reachable c7Opts c7State ∧
    (snapshot c7State).meters.map MeterValue.raw = [some 99999] ∧
    ¬(99999 ≤ 65535) :=
  ⟨Reachable.step _ (Reachable.step _ (Reachable.step _ Reachable.init)),
   by decide, by decide⟩

/-- C7 (amended).  In every reachable state, every meter record's `raw` is
null or an integer in [0, 99999]: the parser accepts exactly five decimal
digits, so 99999 — not 65535 — is the tight upper bound the code maintains. -/
theorem raw_range_invariant (o : Options) (s : ClientState) (hr : Reachable o s) :
    ((snapshot s).meters.all (fun mv => decide (mv.raw.getD 0 ≤ 99999))) = true := by
  have h := reachable_rawOk hr
  rw [rawOk_iff] at h
  rw [List.all_eq_true]
  intro mv hmv
  rcases List.mem_map.mp hmv with ⟨p, hp, rfl⟩
  exact decide_eq_true (h p hp)

/-- C7 witness: the amended bound holds even at the counterexample state
carrying `raw = 99999`. -/
theorem raw_range_invariant_witness :
    ((snapshot c7State).meters.all (fun mv => decide (mv.raw.getD 0 ≤ 99999))) = true :=
  raw_range_invariant c7Opts c7State
    (Reachable.step _ (Reachable.step _ (Reachable.step _ Reachable.init)))

/-- The concrete client configuration used for the snapshot-aliasing
analysis: one meter on controller 9001. -/
def c8Opts : Options := ⟨"h", none, none, none, none, none, [⟨"vu", "VU", 9001⟩]⟩

/-- The state at which a snapshot is taken: started and connected, no frame
processed yet, so the meter record reads `raw = null`. -/
def c8Before : ClientState := onConnect 10 (start (mkClient c8Opts))

/-- The same client after one further data event, the frame `#09001=00042\r`,
processed after that snapshot was taken. -/
def c8After : ClientState := onData (frameChars 9001 42 ++ ['\r']) 50 c8Before

/-- Dereference, at the current state, a `MeterValue` record retained from an
earlier `snapshot()`.  This models the source faithfully: the meters array a
snapshot returns is fresh, but its elements are references to the very
objects stored in `this.values`; the data handler mutates those objects'
fields in place (`this.values[id].raw = ...`) and never replaces or removes
a record, so a reference retained from any earlier snapshot always
dereferences to the record currently stored under the same id. -/
def aliasedRead (s : ClientState) (ref : String) : Option MeterValue :=
  getKey s.values ref

/-- C8 (defect evidence).  `snapshot()` does not return a copy of the
`MeterValue` records: `Object.values(this.values)` copies only the array,
and the records inside it are live references into client state.
Concretely: at snapshot time the record for "vu" reads `raw = null` and the
snapshot's meters list shows exactly that; after one later push frame, the
very record retained from that earlier snapshot reads `raw = 42`, so the
point-in-time immutable-copy contract the claim states is violated
(symmetrically, a caller mutating a returned record would corrupt client
state). -/
theorem snapshot_records_not_copies :
    (snapshot c8Before).meters = [⟨"vu", "VU", 9001, none, none⟩] ∧
    aliasedRead c8Before "vu" = some ⟨"vu", "VU", 9001, none, none⟩ ∧
    aliasedRead c8After "vu" = some ⟨"vu", "VU", 9001, some 42, some 50⟩ ∧
    aliasedRead c8After "vu" ≠ aliasedRead c8Before "vu" := by
  decide

end Symetrix
